import Mathlib

/-!
Shallow embedding of `pdb.go` (package `pdb`): the MSF container loader of a
PDB file — superblock parsing, page reads, the free page map, stream-directory
reconstruction and stream reassembly — together with theorems about its
behaviour.

Conventions of the embedding:
* bytes are `Nat` values (0..255 in well-formed data), the file buffer is a
  `List Nat`;
* Go's multi-byte `binary.Read` decodes become explicit little-endian reads
  over a cursor, represented as the list of bytes not yet consumed;
* a failed `binary.Read` (io.EOF / io.ErrUnexpectedEOF) is the recoverable
  `PDBError.truncated`;
* the `errors.Errorf` on a bad MSF signature is `PDBError.formatErr`;
* a Go runtime panic (slice or index out of range, `make` with a negative
  length) is `PDBError.goPanic`: unlike the two kinds above it is not an
  `error` value returned by the Go code — it aborts the program — and the
  embedding keeps it as a separate constructor so that returned errors and
  panics stay distinguishable.
-/

set_option maxRecDepth 100000

namespace PDB

/-- A byte of the file buffer. -/
abbrev Byte := Nat

/-- Outcomes of the Go code other than a normal return (see the module
docstring): `truncated` and `formatErr` are `error` values the Go functions
return; `goPanic` is a Go runtime panic. `outOfRange` and `unknownStream` are
the error kinds named by the spec's error-handling design; no code path of
`pdb.go` produces them. -/
inductive PDBError where
  | formatErr
  | truncated
  | outOfRange
  | unknownStream
  | goPanic
  deriving DecidableEq, Repr

/-- Little-endian value of a byte list (first byte least significant). -/
def leValue : List Byte → Nat
  | [] => 0
  | b :: rest => b + 256 * leValue rest

/-- Reinterpret a 32-bit little-endian value as Go's `int32`. -/
def toInt32 (n : Nat) : Int :=
  if n < 2 ^ 31 then (n : Int) else (n : Int) - 2 ^ 32

/-- Consume `n` raw bytes from the cursor. `binary.Read` fails (io.EOF or
io.ErrUnexpectedEOF) when fewer than `n` bytes remain. -/
def readBytes (n : Nat) (bs : List Byte) : Except PDBError (List Byte × List Byte) :=
  if n ≤ bs.length then Except.ok (bs.take n, bs.drop n)
  else Except.error PDBError.truncated

/-- `binary.Read` of a `uint16`, little-endian. -/
def readU16 (bs : List Byte) : Except PDBError (Nat × List Byte) :=
  match readBytes 2 bs with
  | Except.error e => Except.error e
  | Except.ok (f, rest) => Except.ok (leValue f, rest)

/-- `binary.Read` of a `uint32`, little-endian. -/
def readU32 (bs : List Byte) : Except PDBError (Nat × List Byte) :=
  match readBytes 4 bs with
  | Except.error e => Except.error e
  | Except.ok (f, rest) => Except.ok (leValue f, rest)

/-- `binary.Read` of an `int32`, little-endian. -/
def readI32 (bs : List Byte) : Except PDBError (Int × List Byte) :=
  match readBytes 4 bs with
  | Except.error e => Except.error e
  | Except.ok (f, rest) => Except.ok (toInt32 (leValue f), rest)

/-- `binary.Read` of a `[]uint16` of the given length, little-endian.
A zero-length slice reads nothing and succeeds, as in Go. -/
def readU16List : Nat → List Byte → Except PDBError (List Nat × List Byte)
  | 0, bs => Except.ok ([], bs)
  | Nat.succ n, bs =>
    match readU16 bs with
    | Except.error e => Except.error e
    | Except.ok (v, bs1) =>
      match readU16List n bs1 with
      | Except.error e => Except.error e
      | Except.ok (vs, bs2) => Except.ok (v :: vs, bs2)

/-- Floor of `a / c` for `0 < c`, computed with natural division. -/
def floorDivPos (a c : Int) : Int :=
  if 0 ≤ a then ((a.toNat / c.toNat : Nat) : Int)
  else -(((((-a).toNat + c.toNat - 1) / c.toNat : Nat) : Int))

/-- Ceiling of `a / c` for `0 < c`, computed with natural division. -/
def ceilDivPos (a c : Int) : Int :=
  if 0 ≤ a then ((((a.toNat + c.toNat - 1) / c.toNat : Nat) : Int))
  else -(((-a).toNat / c.toNat : Nat) : Int)

/-- The page-count computation of `pdb.go`:
`int(math.Ceil(float64(size) / float64(pageSize)))`.
For `int32` inputs with `pageSize ≠ 0` the `float64` computation is exact
(the magnitudes are below `2^31`, far inside the 53-bit mantissa, and a
non-integer rational `a/b` with `b < 2^31` is at distance `> 2^-31` from any
integer while the division's rounding error is below `2^-22`), so the result
equals the exact integer ceiling computed here. For `pageSize = 0` the Go
expression converts `±Inf`/`NaN` to `int`, which Go leaves
implementation-defined; that case is modelled as `0` and is exercised by no
claim. -/
def ceilNPages (size pageSize : Int) : Int :=
  if 0 < pageSize then ceilDivPos size pageSize
  else if pageSize < 0 then -(floorDivPos size (-pageSize))
  else 0

/-- The 44-byte MSF signature
`"Microsoft C/C++ program database 2.00\r\n\x1a\x4a\x47\x00\x00"`
(`msfSignature` in `pdb.go`), as byte values. -/
def msfSignature : List Byte :=
  [77, 105, 99, 114, 111, 115, 111, 102, 116, 32,
   67, 47, 67, 43, 43, 32,
   112, 114, 111, 103, 114, 97, 109, 32,
   100, 97, 116, 97, 98, 97, 115, 101, 32,
   50, 46, 48, 48,
   13, 10, 26, 74, 71, 0, 0]

/-- `StreamInfo` from `pdb.go`: stream size in bytes (`int32`) and an unknown
reserved field (`int32`). -/
structure StreamInfo where
  size : Int
  unknown : Int
  deriving DecidableEq, Repr

/-- `MSFHeader` from `pdb.go`: the MSF superblock. -/
structure MSFHeader where
  magic : List Byte
  pageSize : Int
  freePageMapPageNum : Nat
  nPages : Nat
  streamTblInfo : StreamInfo
  pageNumMap : List Nat
  deriving DecidableEq, Repr

/-- `parseMSFHeader` from `pdb.go`: sequential little-endian decode of the MSF
superblock — 44-byte magic (compared against `msfSignature`, mismatch is the
`errors.Errorf` modelled as `formatErr`), `int32` page size, `uint16` free
page map page number, `uint16` page count, the 8-byte `StreamInfo` (two
`int32`s, read field by field as `binary.Read` does for a struct), then
`ceilNPages` 2-byte page indices. `make([]uint16, n)` with negative `n` is a
Go runtime panic. -/
def parseMSFHeader (bs : List Byte) : Except PDBError (MSFHeader × List Byte) :=
  match readBytes 44 bs with
  | Except.error e => Except.error e
  | Except.ok (magic, bs) =>
    if magic ≠ msfSignature then Except.error PDBError.formatErr
    else
      match readI32 bs with
      | Except.error e => Except.error e
      | Except.ok (pageSize, bs) =>
        match readU16 bs with
        | Except.error e => Except.error e
        | Except.ok (freePageMapPageNum, bs) =>
          match readU16 bs with
          | Except.error e => Except.error e
          | Except.ok (nPages, bs) =>
            match readI32 bs with
            | Except.error e => Except.error e
            | Except.ok (size, bs) =>
              match readI32 bs with
              | Except.error e => Except.error e
              | Except.ok (unknown, bs) =>
                let streamTblNPages := ceilNPages size pageSize
                if streamTblNPages < 0 then Except.error PDBError.goPanic
                else
                  match readU16List streamTblNPages.toNat bs with
                  | Except.error e => Except.error e
                  | Except.ok (pageNumMap, bs) =>
                    Except.ok ({ magic := magic, pageSize := pageSize,
                                 freePageMapPageNum := freePageMapPageNum,
                                 nPages := nPages,
                                 streamTblInfo := ⟨size, unknown⟩,
                                 pageNumMap := pageNumMap }, bs)

/-- `readPage` from `pdb.go`: `file.Data[start:end]` with
`start = pageNum*pageSize`, `end = start+pageSize`. A Go slice expression
panics unless `0 ≤ start ≤ end ≤ len(Data)`; that runtime panic is
`goPanic`. -/
def readPage (data : List Byte) (pageSize pageNum : Int) : Except PDBError (List Byte) :=
  let start := pageNum * pageSize
  let stop := start + pageSize
  if 0 ≤ start ∧ start ≤ stop ∧ stop ≤ (data.length : Int) then
    Except.ok ((data.drop start.toNat).take pageSize.toNat)
  else Except.error PDBError.goPanic

/-- Go slice indexing `l[i]`: a runtime panic when `i` is out of range. -/
def goIndex {α : Type} (l : List α) (i : Nat) : Except PDBError α :=
  if h : i < l.length then Except.ok (l.get ⟨i, h⟩)
  else Except.error PDBError.goPanic

/-- Go slicing `l[:high]`: a runtime panic unless `0 ≤ high ≤ len(l)`. -/
def goSliceTo (l : List Byte) (high : Int) : Except PDBError (List Byte) :=
  if 0 ≤ high ∧ high ≤ (l.length : Int) then Except.ok (l.take high.toNat)
  else Except.error PDBError.goPanic

/-- `FreePageMap` from `pdb.go`: one page of bits, bit = 1 meaning the page is
unused / free. -/
structure FreePageMap where
  pageBits : List Byte
  deriving DecidableEq, Repr

/-- `IsFree` from `pdb.go`: tests bit `pageNum % 8` of byte `pageNum / 8` of
the bitmap (`mask := uint8(1) << (pageNum % 8)`; the shift is at most 7, so
the `uint8` mask never truncates). Indexing `PageBits[i]` out of range is a
Go runtime panic. `pageNum` is a Go `int`; the embedding takes the
non-negative page numbers, the domain every claim quantifies over (a negative
argument would make the Go shift `1 << j` panic on a negative count). -/
def isFree (fpm : FreePageMap) (pageNum : Nat) : Except PDBError Bool :=
  if h : pageNum / 8 < fpm.pageBits.length then
    Except.ok (decide (fpm.pageBits.get ⟨pageNum / 8, h⟩ &&& (1 <<< (pageNum % 8)) ≠ 0))
  else Except.error PDBError.goPanic

/-- `StreamTable` from `pdb.go`: stream count, per-stream `StreamInfo`, and
the jagged per-stream page-number lists. -/
structure StreamTable where
  nStreams : Nat
  streamInfos : List StreamInfo
  pageNumMaps : List (List Nat)
  deriving DecidableEq, Repr

/-- The page-concatenation loop shared by `readStreamTable` and
`readStreamData` in `pdb.go`: read each listed page with `readPage` and
append, propagating the panic of an out-of-range page. -/
def readPages (data : List Byte) (pageSize : Int) : List Nat → Except PDBError (List Byte)
  | [] => Except.ok []
  | p :: ps =>
    match readPage data pageSize (p : Int) with
    | Except.error e => Except.error e
    | Except.ok pageData =>
      match readPages data pageSize ps with
      | Except.error e => Except.error e
      | Except.ok rest => Except.ok (pageData ++ rest)

/-- The loop body of `readStreamTable` in `pdb.go`: for each loop index in the
given list, look up `PageNumMap[index]` (Go indexing, panics out of range) and
append that page's contents. -/
def readTblPages (data : List Byte) (hdr : MSFHeader) : List Nat → Except PDBError (List Byte)
  | [] => Except.ok []
  | i :: is =>
    match goIndex hdr.pageNumMap i with
    | Except.error e => Except.error e
    | Except.ok pageNum =>
      match readPage data hdr.pageSize (pageNum : Int) with
      | Except.error e => Except.error e
      | Except.ok pageData =>
        match readTblPages data hdr is with
        | Except.error e => Except.error e
        | Except.ok rest => Except.ok (pageData ++ rest)

/-- `readStreamTable` from `pdb.go`: recompute the stream-table page count
with the `ceilNPages` formula, concatenate those pages of `PageNumMap` in
order (a Go `for` loop whose bound, if negative, just runs zero times), and
truncate the concatenation with the Go slice `streamTblData[:Size]`. -/
def readStreamTable (data : List Byte) (hdr : MSFHeader) : Except PDBError (List Byte) :=
  let streamTblNPages := ceilNPages hdr.streamTblInfo.size hdr.pageSize
  match readTblPages data hdr (List.range streamTblNPages.toNat) with
  | Except.error e => Except.error e
  | Except.ok streamTblData => goSliceTo streamTblData hdr.streamTblInfo.size

/-- The `StreamInfos` decode of `parseStreamTable` in `pdb.go`:
`binary.Read` of a `[]StreamInfo` of the given length — 8 bytes per entry,
`Size` then `Unknown`, little-endian, packed contiguously. -/
def readStreamInfos : Nat → List Byte → Except PDBError (List StreamInfo × List Byte)
  | 0, bs => Except.ok ([], bs)
  | Nat.succ n, bs =>
    match readI32 bs with
    | Except.error e => Except.error e
    | Except.ok (size, bs1) =>
      match readI32 bs1 with
      | Except.error e => Except.error e
      | Except.ok (unknown, bs2) =>
        match readStreamInfos n bs2 with
        | Except.error e => Except.error e
        | Except.ok (rest, bs3) => Except.ok (⟨size, unknown⟩ :: rest, bs3)

/-- The `PageNumMaps` loop of `parseStreamTable` in `pdb.go`: for each stream
in declared order, compute its page count with the `ceilNPages` formula
(`make` with a negative count is a Go panic) and read that many `uint16`
page indices. -/
def readPageNumMaps (pageSize : Int) :
    List StreamInfo → List Byte → Except PDBError (List (List Nat) × List Byte)
  | [], bs => Except.ok ([], bs)
  | si :: sis, bs =>
    let streamNPages := ceilNPages si.size pageSize
    if streamNPages < 0 then Except.error PDBError.goPanic
    else
      match readU16List streamNPages.toNat bs with
      | Except.error e => Except.error e
      | Except.ok (pnm, bs1) =>
        match readPageNumMaps pageSize sis bs1 with
        | Except.error e => Except.error e
        | Except.ok (rest, bs2) => Except.ok (pnm :: rest, bs2)

/-- `parseStreamTable` from `pdb.go`: strictly in order, a `uint32` stream
count, then that many 8-byte `StreamInfo` records, then the per-stream
page-number lists. -/
def parseStreamTable (pageSize : Int) (bs : List Byte) : Except PDBError StreamTable :=
  match readU32 bs with
  | Except.error e => Except.error e
  | Except.ok (nStreams, bs1) =>
    match readStreamInfos nStreams bs1 with
    | Except.error e => Except.error e
    | Except.ok (streamInfos, bs2) =>
      match readPageNumMaps pageSize streamInfos bs2 with
      | Except.error e => Except.error e
      | Except.ok (pageNumMaps, _) =>
        Except.ok { nStreams := nStreams, streamInfos := streamInfos,
                    pageNumMaps := pageNumMaps }

/-- `readStreamData` from `pdb.go`: look up `StreamInfos[streamNum]` and
`PageNumMaps[streamNum]` (Go indexing, panics when out of range), concatenate
the listed pages, and truncate with the Go slice `streamData[:Size]`.
`streamNum` is a Go `int`; the embedding takes the non-negative stream
numbers, the domain every claim quantifies over. -/
def readStreamData (data : List Byte) (pageSize : Int) (tbl : StreamTable)
    (streamNum : Nat) : Except PDBError (List Byte) :=
  match goIndex tbl.streamInfos streamNum with
  | Except.error e => Except.error e
  | Except.ok streamInfo =>
    match goIndex tbl.pageNumMaps streamNum with
    | Except.error e => Except.error e
    | Except.ok pageNumMap =>
      match readPages data pageSize pageNumMap with
      | Except.error e => Except.error e
      | Except.ok streamData => goSliceTo streamData streamInfo.size

/-- Modelled from the spec: the decoded result of `parsePDBStream`, which is
not part of this source file (the spec treats stream-type decoders beyond the
container layer as external collaborators). Its contents are opaque to the
container layer. -/
structure PDBStream where
  raw : List Byte
  deriving DecidableEq, Repr

/-- `Stream` from `pdb.go`: currently the only stream type is `*PDBStream`. -/
inductive Stream where
  | pdbStream (s : PDBStream)
  deriving DecidableEq, Repr

/-- The type of the header-stream decoder. Modelled from the spec:
`parsePDBStream` is not in this source file; the spec says only that the
decoder "receives a byte cursor over the reassembled, correctly-truncated
stream bytes" and may fail, so it is modelled as an arbitrary function from
those bytes to a decoded stream or an error. -/
abbrev PDBStreamDecoder := List Byte → Except PDBError PDBStream

/-- `parseStream` from `pdb.go`: reassemble the stream's bytes (a panic there
propagates), then dispatch on the stream number — stream 1 goes to the
header-stream decoder and is appended to `Streams` on success, every other
number only logs a warning. The second component is the function's returned
`error` value (`parsePDBStream`'s error for stream 1, `nil` otherwise), which
the only caller, `ParseFile`, discards. -/
def parseStream (dec : PDBStreamDecoder) (data : List Byte) (pageSize : Int)
    (tbl : StreamTable) (streams : List Stream) (streamNum : Nat) :
    Except PDBError (List Stream × Option PDBError) :=
  match readStreamData data pageSize tbl streamNum with
  | Except.error e => Except.error e
  | Except.ok streamData =>
    if streamNum = 1 then
      match dec streamData with
      | Except.ok pdbStream => Except.ok (streams ++ [Stream.pdbStream pdbStream], none)
      | Except.error e => Except.ok (streams, some e)
    else Except.ok (streams, none)

/-- The stream loop of `ParseFile` in `pdb.go`: `parseStream` for each stream
number in the list, its returned error discarded; only a Go panic stops the
loop. -/
def parseStreams (dec : PDBStreamDecoder) (data : List Byte) (pageSize : Int)
    (tbl : StreamTable) : List Nat → List Stream → Except PDBError (List Stream)
  | [], streams => Except.ok streams
  | i :: is, streams =>
    match parseStream dec data pageSize tbl streams i with
    | Except.error e => Except.error e
    | Except.ok (streams1, _) => parseStreams dec data pageSize tbl is streams1

/-- `File` from `pdb.go`. -/
structure File where
  fileHdr : MSFHeader
  freePageMap : FreePageMap
  streamTbl : StreamTable
  streams : List Stream
  data : List Byte
  deriving DecidableEq, Repr

/-- `ParseFile` from `pdb.go`, minus the file-system read: it takes the raw
buffer the Go code reads from disk, and the header-stream decoder standing in
for the out-of-file `parsePDBStream`. Stages in order: parse the MSF header;
read the free-page-map page and store it verbatim; read and parse the stream
table; run the stream loop from stream 0, starting with no decoded
streams. -/
def ParseFile (dec : PDBStreamDecoder) (buf : List Byte) : Except PDBError File :=
  match parseMSFHeader buf with
  | Except.error e => Except.error e
  | Except.ok (msfHdr, _) =>
    match readPage buf msfHdr.pageSize (msfHdr.freePageMapPageNum : Int) with
    | Except.error e => Except.error e
    | Except.ok freePageMapData =>
      match readStreamTable buf msfHdr with
      | Except.error e => Except.error e
      | Except.ok streamTblData =>
        match parseStreamTable msfHdr.pageSize streamTblData with
        | Except.error e => Except.error e
        | Except.ok streamTbl =>
          match parseStreams dec buf msfHdr.pageSize streamTbl
              (List.range streamTbl.nStreams) [] with
          | Except.error e => Except.error e
          | Except.ok streams =>
            Except.ok { fileHdr := msfHdr, freePageMap := ⟨freePageMapData⟩,
                        streamTbl := streamTbl, streams := streams, data := buf }

/-! ### Spec-side encodings

These definitions follow the spec's words for the on-disk layout (§4.1, §4.4,
§6); the roundtrip theorems below compare the parsers translated from
`pdb.go` against them. -/

/-- A 2-byte little-endian value — the spec's "2-byte page-index entries". -/
def le16 (v : Nat) : List Byte := [v % 256, v / 256 % 256]

/-- A 4-byte little-endian value. -/
def le32 (v : Nat) : List Byte :=
  [v % 256, v / 256 % 256, v / 65536 % 256, v / 16777216 % 256]

/-- A 4-byte little-endian encoding of a non-negative `int32`. -/
def encodeI32 (i : Int) : List Byte := le32 i.toNat

/-- Stream descriptors per the spec: "that many stream descriptors (8 bytes
each, packed contiguously)" — 4-byte size then 4-byte reserved field. -/
def encodeStreamInfos : List StreamInfo → List Byte
  | [] => []
  | si :: rest => encodeI32 si.size ++ encodeI32 si.unknown ++ encodeStreamInfos rest

/-- One page-index list: consecutive 2-byte little-endian entries. -/
def encodePageNumMap (pnm : List Nat) : List Byte := pnm.flatMap le16

/-- A stream directory per the spec: "a 4-byte little-endian stream count,
then that many 8-byte stream descriptors packed contiguously, then for each
stream i in declared order … 2-byte page-index entries". -/
def encodeStreamTable (t : StreamTable) : List Byte :=
  le32 t.nStreams ++ encodeStreamInfos t.streamInfos ++
    (t.pageNumMaps.map encodePageNumMap).flatten

/-- A superblock per the spec: "44-byte magic, 4-byte signed page size, 2-byte
free-page-map page number, 2-byte page count, 8-byte stream-directory
descriptor (4-byte size plus 4-byte reserved field), then … 2-byte page
indices", with no padding between fields. -/
def encodeMSFHeader (h : MSFHeader) : List Byte :=
  h.magic ++ encodeI32 h.pageSize ++ le16 h.freePageMapPageNum ++ le16 h.nPages ++
    encodeI32 h.streamTblInfo.size ++ encodeI32 h.streamTblInfo.unknown ++
    h.pageNumMap.flatMap le16

/-! ### Concrete containers used as witnesses and counterexamples

All of them use page size 1, so every byte of the buffer is its own page and
page numbers are byte offsets. -/

/-- A header-stream decoder that always fails. -/
def dec0 : PDBStreamDecoder := fun _ => Except.error PDBError.truncated

/-- A header-stream decoder that always succeeds, keeping the raw bytes. -/
def decOk : PDBStreamDecoder := fun bs => Except.ok ⟨bs⟩

/-- A minimal valid container: page size 1, free page map at page 0, a 4-byte
stream directory stored on pages 45,46,47,45 — all zero bytes of the encoded
page-size field — declaring zero streams. -/
def sampleBuf : List Byte :=
  msfSignature ++ [1, 0, 0, 0] ++ [0, 0] ++ [68, 0] ++ [4, 0, 0, 0] ++ [0, 0, 0, 0] ++
    [45, 0, 46, 0, 47, 0, 45, 0]

/-- The `File` that loading `sampleBuf` produces. -/
def sampleFile : File :=
  { fileHdr := { magic := msfSignature, pageSize := 1, freePageMapPageNum := 0,
                 nPages := 68, streamTblInfo := ⟨4, 0⟩, pageNumMap := [45, 46, 47, 45] },
    freePageMap := ⟨[77]⟩,
    streamTbl := ⟨0, [], []⟩,
    streams := [],
    data := sampleBuf }

/-- Like `sampleBuf` but declaring 100 pages — more pages than the 8 bits of
its single-byte free page map can describe. Nothing in `pdb.go` validates the
page count against the bitmap size, so this container loads. -/
def buf9 : List Byte :=
  msfSignature ++ [1, 0, 0, 0] ++ [0, 0] ++ [100, 0] ++ [4, 0, 0, 0] ++ [0, 0, 0, 0] ++
    [45, 0, 46, 0, 47, 0, 45, 0]

/-- The `File` that loading `buf9` produces. -/
def file9 : File :=
  { fileHdr := { magic := msfSignature, pageSize := 1, freePageMapPageNum := 0,
                 nPages := 100, streamTblInfo := ⟨4, 0⟩, pageNumMap := [45, 46, 47, 45] },
    freePageMap := ⟨[77]⟩,
    streamTbl := ⟨0, [], []⟩,
    streams := [],
    data := buf9 }

/-- A container with two streams: page size 1, a 26-byte stream directory on
pages 112..137 (right after the 112-byte header), stream 0 of size 1 on page
44 and stream 1 — the PDB header stream — of size 2 on pages 45 and 46. -/
def richBuf : List Byte :=
  msfSignature ++ [1, 0, 0, 0] ++ [0, 0] ++ [138, 0] ++ [26, 0, 0, 0] ++ [0, 0, 0, 0] ++
    (List.range' 112 26).flatMap (fun p => [p % 256, p / 256]) ++
    [2, 0, 0, 0,
     1, 0, 0, 0, 0, 0, 0, 0,
     2, 0, 0, 0, 0, 0, 0, 0,
     44, 0,
     45, 0, 46, 0]

/-- The superblock of `richBuf`. -/
def richHdr : MSFHeader :=
  { magic := msfSignature, pageSize := 1, freePageMapPageNum := 0, nPages := 138,
    streamTblInfo := ⟨26, 0⟩, pageNumMap := List.range' 112 26 }

/-- The stream table of `richBuf`. -/
def richTbl : StreamTable :=
  ⟨2, [⟨1, 0⟩, ⟨2, 0⟩], [[44], [45, 46]]⟩

/-- The `File` that loading `richBuf` with the decoder `decOk` produces. -/
def richFile : File :=
  { fileHdr := richHdr, freePageMap := ⟨[77]⟩, streamTbl := richTbl,
    streams := [Stream.pdbStream ⟨[0, 0]⟩], data := richBuf }

/-- A container whose stream directory declares 1 byte stored on page 200 of a
62-byte buffer: the page holding the directory lies wholly outside the buffer,
so the declared directory size exceeds the bytes those pages can supply. -/
def shortDirBuf : List Byte :=
  msfSignature ++ [1, 0, 0, 0] ++ [0, 0] ++ [68, 0] ++ [1, 0, 0, 0] ++ [0, 0, 0, 0] ++ [200, 0]

instance {ε α : Type} [DecidableEq ε] [DecidableEq α] : DecidableEq (Except ε α) :=
  fun a b =>
    match a, b with
    | Except.ok x, Except.ok y =>
      if h : x = y then Decidable.isTrue (by rw [h]) else Decidable.isFalse (by simp [h])
    | Except.error x, Except.error y =>
      if h : x = y then Decidable.isTrue (by rw [h]) else Decidable.isFalse (by simp [h])
    | Except.ok _, Except.error _ => Decidable.isFalse (by simp)
    | Except.error _, Except.ok _ => Decidable.isFalse (by simp)

/-! ### Lemmas about the byte-cursor readers -/

theorem readBytes_append (n : Nat) (l r : List Byte) (h : l.length = n) :
    readBytes n (l ++ r) = Except.ok (l, r) := by
  subst h
  rw [readBytes, if_pos (by simp), List.take_left, List.drop_left]

theorem readBytes_short (n : Nat) (bs : List Byte) (h : bs.length < n) :
    readBytes n bs = Except.error PDBError.truncated := by
  rw [readBytes, if_neg (by omega)]

theorem leValue_le16 (v : Nat) (h : v < 2 ^ 16) : leValue (le16 v) = v := by
  simp only [le16, leValue]
  omega

theorem leValue_le32 (v : Nat) (h : v < 2 ^ 32) : leValue (le32 v) = v := by
  simp only [le32, leValue]
  omega

theorem readU16_le16 (v : Nat) (r : List Byte) (h : v < 2 ^ 16) :
    readU16 (le16 v ++ r) = Except.ok (v, r) := by
  simp only [readU16, readBytes_append 2 (le16 v) r (by simp [le16]), leValue_le16 v h]

theorem readU32_le32 (v : Nat) (r : List Byte) (h : v < 2 ^ 32) :
    readU32 (le32 v ++ r) = Except.ok (v, r) := by
  simp only [readU32, readBytes_append 4 (le32 v) r (by simp [le32]), leValue_le32 v h]

theorem toInt32_toNat (i : Int) (h0 : 0 ≤ i) (h1 : i < 2 ^ 31) :
    toInt32 i.toNat = i := by
  rw [toInt32, if_pos (by omega)]
  omega

theorem readI32_encodeI32 (i : Int) (r : List Byte) (h0 : 0 ≤ i) (h1 : i < 2 ^ 31) :
    readI32 (encodeI32 i ++ r) = Except.ok (i, r) := by
  simp only [readI32, encodeI32, readBytes_append 4 (le32 i.toNat) r (by simp [le32]),
    leValue_le32 i.toNat (by omega), toInt32_toNat i h0 h1]

theorem readU16_ok (bs : List Byte) (h : 2 ≤ bs.length) :
    readU16 bs = Except.ok (leValue (bs.take 2), bs.drop 2) := by
  rw [readU16, readBytes, if_pos h]

theorem readU16_short (bs : List Byte) (h : bs.length < 2) :
    readU16 bs = Except.error PDBError.truncated := by
  rw [readU16, readBytes_short 2 bs h]

theorem readU32_short (bs : List Byte) (h : bs.length < 4) :
    readU32 bs = Except.error PDBError.truncated := by
  rw [readU32, readBytes_short 4 bs h]

theorem readI32_ok (bs : List Byte) (h : 4 ≤ bs.length) :
    readI32 bs = Except.ok (toInt32 (leValue (bs.take 4)), bs.drop 4) := by
  rw [readI32, readBytes, if_pos h]

theorem readI32_short (bs : List Byte) (h : bs.length < 4) :
    readI32 bs = Except.error PDBError.truncated := by
  rw [readI32, readBytes_short 4 bs h]

theorem readU16List_encode (pnm : List Nat) (r : List Byte) (h : ∀ p ∈ pnm, p < 2 ^ 16) :
    readU16List pnm.length (pnm.flatMap le16 ++ r) = Except.ok (pnm, r) := by
  induction pnm with
  | nil => simp [readU16List]
  | cons p ps ih =>
    simp only [List.length_cons, readU16List, List.flatMap_cons, List.append_assoc,
      readU16_le16 p _ (h p (by simp)), ih (fun q hq => h q (by simp [hq]))]

theorem readU16List_short (n : Nat) (bs : List Byte) (h : bs.length < 2 * n) :
    readU16List n bs = Except.error PDBError.truncated := by
  induction n generalizing bs with
  | zero => omega
  | succ n ih =>
    by_cases h2 : bs.length < 2
    · simp only [readU16List, readU16_short bs h2]
    · simp only [readU16List, readU16_ok bs (by omega), ih (bs.drop 2) (by simp; omega)]

theorem readU16List_ok (n : Nat) (bs : List Byte) (h : 2 * n ≤ bs.length) :
    ∃ vs, readU16List n bs = Except.ok (vs, bs.drop (2 * n)) ∧ vs.length = n := by
  induction n generalizing bs with
  | zero => exact ⟨[], by simp [readU16List], rfl⟩
  | succ n ih =>
    obtain ⟨vs, hvs, hlen⟩ := ih (bs.drop 2) (by simp; omega)
    refine ⟨leValue (bs.take 2) :: vs, ?_, by simp [hlen]⟩
    simp only [readU16List, readU16_ok bs (by omega), hvs, List.drop_drop]
    have h2 : 2 + 2 * n = 2 * (n + 1) := by ring
    rw [h2]

theorem readStreamInfos_encode (infos : List StreamInfo) (r : List Byte)
    (h : ∀ si ∈ infos, 0 ≤ si.size ∧ si.size < 2 ^ 31 ∧ 0 ≤ si.unknown ∧ si.unknown < 2 ^ 31) :
    readStreamInfos infos.length (encodeStreamInfos infos ++ r) = Except.ok (infos, r) := by
  induction infos with
  | nil => simp [readStreamInfos, encodeStreamInfos]
  | cons si sis ih =>
    obtain ⟨h1, h2, h3, h4⟩ := h si (by simp)
    simp only [List.length_cons, readStreamInfos, encodeStreamInfos, List.append_assoc,
      readI32_encodeI32 si.size _ h1 h2, readI32_encodeI32 si.unknown _ h3 h4,
      ih (fun q hq => h q (by simp [hq]))]

theorem readStreamInfos_short (n : Nat) (bs : List Byte) (h : bs.length < 8 * n) :
    readStreamInfos n bs = Except.error PDBError.truncated := by
  induction n generalizing bs with
  | zero => omega
  | succ n ih =>
    by_cases h4 : bs.length < 4
    · simp only [readStreamInfos, readI32_short bs h4]
    · by_cases h8 : bs.length < 8
      · simp only [readStreamInfos, readI32_ok bs (by omega),
          readI32_short (bs.drop 4) (by simp; omega)]
      · simp only [readStreamInfos, readI32_ok bs (by omega), readI32_ok (bs.drop 4) (by simp; omega),
          ih ((bs.drop 4).drop 4) (by simp; omega)]

/-! ### Arithmetic about the page-count formula -/

theorem ceilNPages_eq (size ps : Int) (h0 : 0 ≤ size) (h1 : 0 < ps) :
    ceilNPages size ps = ((size.toNat + ps.toNat - 1) / ps.toNat : Nat) := by
  rw [ceilNPages, if_pos h1, ceilDivPos, if_pos h0]

theorem ceilNPages_nonneg (size ps : Int) (h0 : 0 ≤ size) (h1 : 0 < ps) :
    0 ≤ ceilNPages size ps := by
  rw [ceilNPages_eq size ps h0 h1]
  exact Int.natCast_nonneg _

theorem le_ceil_mul (s p : Nat) (hp : 0 < p) : s ≤ (s + p - 1) / p * p := by
  have hdm := Nat.div_add_mod (s + p - 1) p
  have hmod := Nat.mod_lt (s + p - 1) hp
  rw [Nat.mul_comm]
  omega

theorem size_le_ceilNPages_mul (size ps : Int) (h0 : 0 ≤ size) (h1 : 0 < ps) :
    size.toNat ≤ (ceilNPages size ps).toNat * ps.toNat := by
  rw [ceilNPages_eq size ps h0 h1, Int.toNat_natCast]
  exact le_ceil_mul size.toNat ps.toNat (by omega)

/-! ### Lemmas about pages, slices and indexing -/

theorem readPage_ok (data : List Byte) (ps pn : Int) (hps : 0 < ps) (hpn : 0 ≤ pn)
    (h : (pn + 1) * ps ≤ (data.length : Int)) :
    readPage data ps pn = Except.ok ((data.drop (pn * ps).toNat).take ps.toNat) ∧
      ((data.drop (pn * ps).toNat).take ps.toNat).length = ps.toNat := by
  rw [add_one_mul] at h
  have hstart : 0 ≤ pn * ps := mul_nonneg hpn (le_of_lt hps)
  constructor
  · simp only [readPage]
    rw [if_pos ⟨hstart, by omega, h⟩]
  · simp only [List.length_take, List.length_drop]
    omega

theorem readPage_inv (data : List Byte) (ps pn : Int) (pg : List Byte)
    (h : readPage data ps pn = Except.ok pg) :
    0 ≤ pn * ps ∧ pn * ps + ps ≤ (data.length : Int) ∧
      pg = (data.drop (pn * ps).toNat).take ps.toNat ∧ pg.length = ps.toNat := by
  simp only [readPage] at h
  by_cases hc : 0 ≤ pn * ps ∧ pn * ps ≤ pn * ps + ps ∧ pn * ps + ps ≤ (data.length : Int)
  · rw [if_pos hc] at h
    obtain ⟨h1, h2, h3⟩ := hc
    have h4 : (data.drop (pn * ps).toNat).take ps.toNat = pg := by injection h
    refine ⟨h1, h3, h4.symm, ?_⟩
    rw [← h4]
    simp only [List.length_take, List.length_drop]
    omega
  · rw [if_neg hc] at h
    exact Except.noConfusion h

theorem goSliceTo_ok (l : List Byte) (size : Int) (h0 : 0 ≤ size) (h1 : size.toNat ≤ l.length) :
    goSliceTo l size = Except.ok (l.take size.toNat) ∧ (l.take size.toNat).length = size.toNat := by
  constructor
  · rw [goSliceTo, if_pos ⟨h0, by omega⟩]
  · simp only [List.length_take]
    omega

theorem goIndex_ok {α : Type} (l : List α) (i : Nat) (h : i < l.length) :
    goIndex l i = Except.ok (l.get ⟨i, h⟩) := by
  rw [goIndex, dif_pos h]

theorem goIndex_oob {α : Type} (l : List α) (i : Nat) (h : l.length ≤ i) :
    goIndex l i = Except.error PDBError.goPanic := by
  rw [goIndex, dif_neg (by omega)]

theorem readPages_ok (data : List Byte) (ps : Int) (hps : 0 < ps) (pnm : List Nat)
    (hpages : ∀ p ∈ pnm, ((p : Int) + 1) * ps ≤ (data.length : Int)) :
    ∃ c, readPages data ps pnm = Except.ok c ∧ c.length = pnm.length * ps.toNat := by
  induction pnm with
  | nil => exact ⟨[], by simp [readPages], by simp⟩
  | cons p rest ih =>
    obtain ⟨hp, hplen⟩ :=
      readPage_ok data ps (p : Int) hps (Int.natCast_nonneg p) (hpages p (by simp))
    obtain ⟨c, hc, hclen⟩ := ih (fun q hq => hpages q (by simp [hq]))
    refine ⟨List.take ps.toNat (List.drop (((p : Int)) * ps).toNat data) ++ c, ?_, ?_⟩
    · simp only [readPages, hp, hc]
    · simp only [List.length_append, hplen, hclen, List.length_cons]
      ring

theorem readTblPages_range' (data : List Byte) (hdr : MSFHeader) (k : Nat) :
    ∀ i : Nat, i + k ≤ hdr.pageNumMap.length →
    readTblPages data hdr (List.range' i k) =
      readPages data hdr.pageSize ((hdr.pageNumMap.drop i).take k) := by
  induction k with
  | zero =>
    intro i _
    simp [readTblPages, readPages]
  | succ k ih =>
    intro i h
    have hi : i < hdr.pageNumMap.length := by omega
    rw [List.range'_succ]
    have hdrop : (hdr.pageNumMap.drop i).take (k + 1) =
        hdr.pageNumMap.get ⟨i, hi⟩ :: (hdr.pageNumMap.drop (i + 1)).take k := by
      rw [List.drop_eq_getElem_cons hi, List.take_succ_cons, List.get_eq_getElem]
    rw [hdrop]
    simp only [readTblPages, readPages, goIndex_ok _ _ hi, ih (i + 1) (by omega)]

theorem readStreamTable_ok (data : List Byte) (hdr : MSFHeader)
    (hps : 0 < hdr.pageSize) (hsz : 0 ≤ hdr.streamTblInfo.size)
    (hlen : hdr.pageNumMap.length = (ceilNPages hdr.streamTblInfo.size hdr.pageSize).toNat)
    (hpages : ∀ p ∈ hdr.pageNumMap, ((p : Int) + 1) * hdr.pageSize ≤ (data.length : Int)) :
    ∃ c, readPages data hdr.pageSize hdr.pageNumMap = Except.ok c ∧
      readStreamTable data hdr = Except.ok (c.take hdr.streamTblInfo.size.toNat) ∧
      (c.take hdr.streamTblInfo.size.toNat).length = hdr.streamTblInfo.size.toNat := by
  obtain ⟨c, hc, hclen⟩ := readPages_ok data hdr.pageSize hps hdr.pageNumMap hpages
  have hsize_le : hdr.streamTblInfo.size.toNat ≤ c.length := by
    rw [hclen, hlen]
    exact size_le_ceilNPages_mul _ _ hsz hps
  obtain ⟨hslice, hslen⟩ := goSliceTo_ok c hdr.streamTblInfo.size hsz hsize_le
  refine ⟨c, hc, ?_, hslen⟩
  have hrange := readTblPages_range' data hdr hdr.pageNumMap.length 0 (by omega)
  simp only [List.drop_zero, List.take_length] at hrange
  simp only [readStreamTable, List.range_eq_range', ← hlen, hrange, hc, hslice]

/-! ### Lemmas about the stream-table decode -/

theorem readPageNumMaps_encode (ps : Int) (hps : 0 < ps) :
    ∀ (infos : List StreamInfo) (maps : List (List Nat)) (rest : List Byte),
    List.Forall₂ (fun si pnm => pnm.length = (ceilNPages si.size ps).toNat) infos maps →
    (∀ si ∈ infos, 0 ≤ si.size) → (∀ pnm ∈ maps, ∀ p ∈ pnm, p < 2 ^ 16) →
    readPageNumMaps ps infos ((maps.map encodePageNumMap).flatten ++ rest) =
      Except.ok (maps, rest) := by
  intro infos maps rest hF
  induction hF with
  | nil =>
    intro _ _
    simp [readPageNumMaps]
  | @cons si pnm infos' maps' hhead htail ih =>
    intro hsz hbound
    have h0 : 0 ≤ si.size := hsz si (by simp)
    have hn : ¬ ceilNPages si.size ps < 0 := by
      have := ceilNPages_nonneg si.size ps h0 hps
      omega
    have htoNat : (ceilNPages si.size ps).toNat = pnm.length := hhead.symm
    simp only [readPageNumMaps, List.map_cons, List.flatten_cons, List.append_assoc, if_neg hn,
      htoNat, encodePageNumMap, readU16List_encode pnm _ (hbound pnm (by simp)),
      ih (fun q hq => hsz q (by simp [hq])) (fun q hq => hbound q (by simp [hq]))]

theorem readPageNumMaps_short (ps : Int) (hps : 0 < ps) :
    ∀ (infos : List StreamInfo) (bs : List Byte),
    (∀ si ∈ infos, 0 ≤ si.size) →
    bs.length < 2 * (infos.map (fun si => (ceilNPages si.size ps).toNat)).sum →
    readPageNumMaps ps infos bs = Except.error PDBError.truncated := by
  intro infos
  induction infos with
  | nil => simp
  | cons si sis ih =>
    intro bs hsz hlen
    have h0 : 0 ≤ si.size := hsz si (by simp)
    have hn : ¬ ceilNPages si.size ps < 0 := by
      have := ceilNPages_nonneg si.size ps h0 hps
      omega
    simp only [List.map_cons, List.sum_cons] at hlen
    by_cases hshort : bs.length < 2 * (ceilNPages si.size ps).toNat
    · simp only [readPageNumMaps, if_neg hn, readU16List_short _ bs hshort]
    · obtain ⟨vs, hvs, _⟩ := readU16List_ok (ceilNPages si.size ps).toNat bs (by omega)
      simp only [readPageNumMaps, if_neg hn, hvs,
        ih (bs.drop (2 * (ceilNPages si.size ps).toNat)) (fun q hq => hsz q (by simp [hq]))
          (by simp only [List.length_drop]; omega)]

theorem parseStreamTable_encode (ps : Int) (hps : 0 < ps) (t : StreamTable)
    (hn : t.nStreams = t.streamInfos.length) (hn32 : t.nStreams < 2 ^ 32)
    (hinfos : ∀ si ∈ t.streamInfos,
      0 ≤ si.size ∧ si.size < 2 ^ 31 ∧ 0 ≤ si.unknown ∧ si.unknown < 2 ^ 31)
    (hbound : ∀ pnm ∈ t.pageNumMaps, ∀ p ∈ pnm, p < 2 ^ 16)
    (hF : List.Forall₂ (fun si pnm => pnm.length = (ceilNPages si.size ps).toNat)
      t.streamInfos t.pageNumMaps) :
    parseStreamTable ps (encodeStreamTable t) = Except.ok t := by
  obtain ⟨n0, infos, maps⟩ := t
  simp only at hn hn32 hinfos hbound hF
  subst hn
  have hmaps := readPageNumMaps_encode ps hps infos maps [] hF
    (fun q hq => (hinfos q hq).1) hbound
  rw [List.append_nil] at hmaps
  simp only [parseStreamTable, encodeStreamTable, List.append_assoc,
    readU32_le32 infos.length _ hn32, readStreamInfos_encode infos _ hinfos, hmaps]

theorem readStreamInfos_length : ∀ (n : Nat) (bs : List Byte) (infos : List StreamInfo)
    (rest : List Byte), readStreamInfos n bs = Except.ok (infos, rest) → infos.length = n := by
  intro n
  induction n with
  | zero =>
    intro bs infos rest h
    simp only [readStreamInfos, Except.ok.injEq, Prod.mk.injEq] at h
    obtain ⟨h1, _⟩ := h
    subst h1
    rfl
  | succ n ih =>
    intro bs infos rest h
    simp only [readStreamInfos] at h
    cases e1 : readI32 bs with
    | error e =>
      simp only [e1] at h
      exact Except.noConfusion h
    | ok v1 =>
      obtain ⟨size, bs1⟩ := v1
      simp only [e1] at h
      cases e2 : readI32 bs1 with
      | error e =>
        simp only [e2] at h
        exact Except.noConfusion h
      | ok v2 =>
        obtain ⟨unknown, bs2⟩ := v2
        simp only [e2] at h
        cases e3 : readStreamInfos n bs2 with
        | error e =>
          simp only [e3] at h
          exact Except.noConfusion h
        | ok v3 =>
          obtain ⟨tail, bs3⟩ := v3
          simp only [e3, Except.ok.injEq, Prod.mk.injEq] at h
          obtain ⟨h1, _⟩ := h
          subst h1
          simp [ih bs2 tail bs3 e3]

theorem parseStreamTable_lengths (ps : Int) (bs : List Byte) (t : StreamTable)
    (h : parseStreamTable ps bs = Except.ok t) : t.streamInfos.length = t.nStreams := by
  simp only [parseStreamTable] at h
  cases e1 : readU32 bs with
  | error e =>
    simp only [e1] at h
    exact Except.noConfusion h
  | ok v1 =>
    obtain ⟨nStreams, bs1⟩ := v1
    simp only [e1] at h
    cases e2 : readStreamInfos nStreams bs1 with
    | error e =>
      simp only [e2] at h
      exact Except.noConfusion h
    | ok v2 =>
      obtain ⟨infos, bs2⟩ := v2
      simp only [e2] at h
      cases e3 : readPageNumMaps ps infos bs2 with
      | error e =>
        simp only [e3] at h
        exact Except.noConfusion h
      | ok v3 =>
        obtain ⟨maps, bs3⟩ := v3
        simp only [e3, Except.ok.injEq] at h
        subst h
        exact readStreamInfos_length nStreams bs1 infos bs2 e2

/-! ### Lemmas about the free page map -/

theorem isFree_testBit (fpm : FreePageMap) (pn : Nat) (h : pn / 8 < fpm.pageBits.length) :
    isFree fpm pn = Except.ok (Nat.testBit (fpm.pageBits.getD (pn / 8) 0) (pn % 8)) := by
  rw [isFree, dif_pos h]
  have hgd : fpm.pageBits.getD (pn / 8) 0 = fpm.pageBits.get ⟨pn / 8, h⟩ := by
    rw [List.getD_eq_getElem _ _ h, List.get_eq_getElem]
  rw [hgd]
  have key : ∀ x j : Nat, decide (x &&& 1 <<< j ≠ 0) = Nat.testBit x j := by
    intro x j
    rw [Nat.one_shiftLeft, Nat.and_two_pow]
    cases hb : Nat.testBit x j with
    | false => simp
    | true => simp [(pow_pos (by norm_num : (0 : ℕ) < 2) j).ne']
  rw [key]

/-! ### Inversion of the load pipeline -/

theorem ParseFile_inv (dec : PDBStreamDecoder) (buf : List Byte) (f : File)
    (h : ParseFile dec buf = Except.ok f) :
    ∃ hdrRest fpmData streamTblData,
      parseMSFHeader buf = Except.ok (f.fileHdr, hdrRest) ∧
      readPage buf f.fileHdr.pageSize (f.fileHdr.freePageMapPageNum : Int) =
        Except.ok fpmData ∧
      f.freePageMap = ⟨fpmData⟩ ∧
      readStreamTable buf f.fileHdr = Except.ok streamTblData ∧
      parseStreamTable f.fileHdr.pageSize streamTblData = Except.ok f.streamTbl ∧
      parseStreams dec buf f.fileHdr.pageSize f.streamTbl
        (List.range f.streamTbl.nStreams) [] = Except.ok f.streams ∧
      f.data = buf := by
  simp only [ParseFile] at h
  cases e1 : parseMSFHeader buf with
  | error e =>
    simp only [e1] at h
    exact Except.noConfusion h
  | ok v1 =>
    obtain ⟨msfHdr, hdrRest⟩ := v1
    simp only [e1] at h
    cases e2 : readPage buf msfHdr.pageSize (msfHdr.freePageMapPageNum : Int) with
    | error e =>
      simp only [e2] at h
      exact Except.noConfusion h
    | ok fpmData =>
      simp only [e2] at h
      cases e3 : readStreamTable buf msfHdr with
      | error e =>
        simp only [e3] at h
        exact Except.noConfusion h
      | ok streamTblData =>
        simp only [e3] at h
        cases e4 : parseStreamTable msfHdr.pageSize streamTblData with
        | error e =>
          simp only [e4] at h
          exact Except.noConfusion h
        | ok streamTbl =>
          simp only [e4] at h
          cases e5 : parseStreams dec buf msfHdr.pageSize streamTbl
              (List.range streamTbl.nStreams) [] with
          | error e =>
            simp only [e5] at h
            exact Except.noConfusion h
          | ok streams =>
            simp only [e5, Except.ok.injEq] at h
            subst h
            exact ⟨hdrRest, fpmData, streamTblData, rfl, e2, rfl, e3, e4, e5, rfl⟩

theorem parseStreams_failDec (dec : PDBStreamDecoder) (e : PDBError) (data : List Byte)
    (ps : Int) (tbl : StreamTable) :
    ∀ (is : List Nat) (acc s acc' : List Stream),
    parseStreams dec data ps tbl is acc = Except.ok s →
    parseStreams (fun _ => Except.error e) data ps tbl is acc' = Except.ok acc' := by
  intro is
  induction is with
  | nil =>
    intro acc s acc' _
    simp [parseStreams]
  | cons i is ih =>
    intro acc s acc' h
    cases er : readStreamData data ps tbl i with
    | error e' =>
      simp only [parseStreams, parseStream, er] at h
      exact Except.noConfusion h
    | ok sd =>
      by_cases hi : i = 1
      · simp only [parseStreams, parseStream, er, if_pos hi] at h ⊢
        cases ed : dec sd with
        | ok s1 =>
          simp only [ed] at h
          exact ih _ _ acc' h
        | error e1 =>
          simp only [ed] at h
          exact ih _ _ acc' h
      · simp only [parseStreams, parseStream, er, if_neg hi] at h ⊢
        exact ih _ _ acc' h

theorem goIndex_getD {α : Type} (l : List α) (i : Nat) (d : α) (h : i < l.length) :
    goIndex l i = Except.ok (l.getD i d) := by
  rw [goIndex_ok l i h, List.getD_eq_getElem _ _ h, List.get_eq_getElem]

/-! ### The claims -/

/-- C1: in a valid container — the stream's page-index list has the declared
`ceil(byteSize / pageSize)` length and every listed page lies wholly inside
the buffer — `readStreamData i` for an in-range stream number `i` returns
exactly `streamInfos[i].size` bytes: the concatenation of the stream's pages
in list order, truncated to the declared size; and a declared size of 0
yields the empty byte sequence. -/
theorem readStreamData_exact_size (data : List Byte) (ps : Int) (tbl : StreamTable) (i : Nat)
    (hps : 0 < ps) (hi : i < tbl.streamInfos.length) (him : i < tbl.pageNumMaps.length)
    (hsz : 0 ≤ (tbl.streamInfos.getD i ⟨0, 0⟩).size)
    (hlen : (tbl.pageNumMaps.getD i []).length =
      (ceilNPages (tbl.streamInfos.getD i ⟨0, 0⟩).size ps).toNat)
    (hpages : ∀ p ∈ tbl.pageNumMaps.getD i [], ((p : Int) + 1) * ps ≤ (data.length : Int)) :
    ∃ c, readPages data ps (tbl.pageNumMaps.getD i []) = Except.ok c ∧
      readStreamData data ps tbl i =
        Except.ok (c.take (tbl.streamInfos.getD i ⟨0, 0⟩).size.toNat) ∧
      (c.take (tbl.streamInfos.getD i ⟨0, 0⟩).size.toNat).length =
        (tbl.streamInfos.getD i ⟨0, 0⟩).size.toNat ∧
      ((tbl.streamInfos.getD i ⟨0, 0⟩).size = 0 →
        c.take (tbl.streamInfos.getD i ⟨0, 0⟩).size.toNat = []) := by
  obtain ⟨c, hc, hclen⟩ := readPages_ok data ps hps _ hpages
  have hle : (tbl.streamInfos.getD i ⟨0, 0⟩).size.toNat ≤ c.length := by
    rw [hclen, hlen]
    exact size_le_ceilNPages_mul _ _ hsz hps
  obtain ⟨hslice, hslen⟩ := goSliceTo_ok c _ hsz hle
  refine ⟨c, hc, ?_, hslen, ?_⟩
  · simp only [readStreamData, goIndex_getD tbl.streamInfos i ⟨0, 0⟩ hi,
      goIndex_getD tbl.pageNumMaps i [] him, hc, hslice]
  · intro h0
    rw [h0]
    simp

/-- Witness for C1: in `richBuf`, stream 1 declares 2 bytes on pages 45 and
46 and reassembles to exactly those 2 bytes. -/
theorem readStreamData_exact_size_witness :
    ∃ c, readPages richBuf 1 (richTbl.pageNumMaps.getD 1 []) = Except.ok c ∧
      readStreamData richBuf 1 richTbl 1 =
        Except.ok (c.take (richTbl.streamInfos.getD 1 ⟨0, 0⟩).size.toNat) ∧
      (c.take (richTbl.streamInfos.getD 1 ⟨0, 0⟩).size.toNat).length =
        (richTbl.streamInfos.getD 1 ⟨0, 0⟩).size.toNat ∧
      ((richTbl.streamInfos.getD 1 ⟨0, 0⟩).size = 0 →
        c.take (richTbl.streamInfos.getD 1 ⟨0, 0⟩).size.toNat = []) :=
  readStreamData_exact_size richBuf 1 richTbl 1 (by norm_num) (by decide) (by decide)
    (by decide) (by decide) (by decide)

/-- C2: stream-directory reconstruction is two-phase. Phase (a): the pages
listed in the superblock's directory page-index list are concatenated in
order and the concatenation is truncated to exactly
`streamTblInfo.size` bytes. Phase (b): a buffer laid out per the spec — a
4-byte little-endian stream count, that many 8-byte descriptors packed
contiguously, then per-stream `ceil(byteSize / pageSize)` 2-byte page-index
entries — decodes strictly in order back to the declared table. -/
theorem streamDirectory_two_phase (data : List Byte) (hdr : MSFHeader) (t : StreamTable)
    (hps : 0 < hdr.pageSize) (hsz : 0 ≤ hdr.streamTblInfo.size)
    (hlen : hdr.pageNumMap.length = (ceilNPages hdr.streamTblInfo.size hdr.pageSize).toNat)
    (hpages : ∀ p ∈ hdr.pageNumMap, ((p : Int) + 1) * hdr.pageSize ≤ (data.length : Int))
    (hn : t.nStreams = t.streamInfos.length) (hn32 : t.nStreams < 2 ^ 32)
    (hinfos : ∀ si ∈ t.streamInfos,
      0 ≤ si.size ∧ si.size < 2 ^ 31 ∧ 0 ≤ si.unknown ∧ si.unknown < 2 ^ 31)
    (hbound : ∀ pnm ∈ t.pageNumMaps, ∀ p ∈ pnm, p < 2 ^ 16)
    (hF : List.Forall₂ (fun si pnm => pnm.length = (ceilNPages si.size hdr.pageSize).toNat)
      t.streamInfos t.pageNumMaps) :
    (∃ c, readPages data hdr.pageSize hdr.pageNumMap = Except.ok c ∧
      readStreamTable data hdr = Except.ok (c.take hdr.streamTblInfo.size.toNat) ∧
      (c.take hdr.streamTblInfo.size.toNat).length = hdr.streamTblInfo.size.toNat) ∧
    parseStreamTable hdr.pageSize (encodeStreamTable t) = Except.ok t :=
  ⟨readStreamTable_ok data hdr hps hsz hlen hpages,
   parseStreamTable_encode hdr.pageSize hps t hn hn32 hinfos hbound hF⟩

/-- Witness for C2 at `richBuf`: its 26-byte directory is reassembled from 26
one-byte pages and truncated to 26 bytes, and the spec encoding of its table
decodes back to the table. -/
theorem streamDirectory_two_phase_witness :
    (∃ c, readPages richBuf richHdr.pageSize richHdr.pageNumMap = Except.ok c ∧
      readStreamTable richBuf richHdr = Except.ok (c.take richHdr.streamTblInfo.size.toNat) ∧
      (c.take richHdr.streamTblInfo.size.toNat).length = richHdr.streamTblInfo.size.toNat) ∧
    parseStreamTable richHdr.pageSize (encodeStreamTable richTbl) = Except.ok richTbl :=
  streamDirectory_two_phase richBuf richHdr richTbl (by decide) (by decide) (by decide)
    (by decide) (by decide) (by decide) (by decide) (by decide)
    (by refine List.Forall₂.cons ?_ (List.Forall₂.cons ?_ List.Forall₂.nil) <;> decide)

/-- C3 counterexample: with an empty buffer, page size 1 and page number 0,
the requested range [0,1) exceeds the buffer length, and `readPage` is a Go
runtime panic (`goPanic`) — not the claimed recoverable `outOfRange` error;
the Go function returns bare `[]byte` and has no error path at all. -/
theorem readPage_oob_panics_cex :
    readPage [] 1 0 = Except.error PDBError.goPanic ∧
      readPage [] 1 0 ≠ Except.error PDBError.outOfRange := by
  decide

/-- C3 amended: `readPage` returns the half-open byte range
`[pageNum*pageSize, pageNum*pageSize+pageSize)` — exactly `pageSize` bytes —
when that range lies inside the buffer, and panics (a Go slice-out-of-range,
modelled `goPanic`, not a recoverable `OutOfRangeError`) when the range
exceeds the buffer length. -/
theorem readPage_range_or_panic (data : List Byte) (ps pn : Int)
    (hps : 0 < ps) (hpn : 0 ≤ pn) :
    ((pn + 1) * ps ≤ (data.length : Int) →
      readPage data ps pn = Except.ok ((data.drop (pn * ps).toNat).take ps.toNat) ∧
      ((data.drop (pn * ps).toNat).take ps.toNat).length = ps.toNat) ∧
    ((data.length : Int) < (pn + 1) * ps →
      readPage data ps pn = Except.error PDBError.goPanic) := by
  constructor
  · exact fun h => readPage_ok data ps pn hps hpn h
  · intro h
    rw [add_one_mul] at h
    have hneg : ¬(0 ≤ pn * ps ∧ pn * ps ≤ pn * ps + ps ∧
        pn * ps + ps ≤ (data.length : Int)) := by
      intro hcon
      omega
    simp only [readPage]
    rw [if_neg hneg]

/-- Witness for C3: page 1 of a 2-byte buffer with page size 1 is byte [20];
page 5 is out of range and panics. -/
theorem readPage_range_or_panic_witness :
    readPage [10, 20] 1 1 = Except.ok [20] ∧
      readPage [10, 20] 1 5 = Except.error PDBError.goPanic := by
  constructor
  · exact ((readPage_range_or_panic [10, 20] 1 1 (by norm_num) (by norm_num)).1
      (by norm_num)).1.trans (by decide)
  · exact (readPage_range_or_panic [10, 20] 1 5 (by norm_num) (by norm_num)).2 (by norm_num)

/-- C4 counterexample: `sampleBuf` loads to a container declaring 0 streams;
requesting stream 0 (which is ≥ the declared count) makes `readStreamData`
panic with a Go index-out-of-range (`goPanic`), not the claimed recoverable
`unknownStream` error. -/
theorem readStreamData_oob_panics_cex :
    ParseFile dec0 sampleBuf = Except.ok sampleFile ∧
      sampleFile.streamTbl.nStreams = 0 ∧
      readStreamData sampleFile.data sampleFile.fileHdr.pageSize sampleFile.streamTbl 0 =
        Except.error PDBError.goPanic ∧
      PDBError.goPanic ≠ PDBError.unknownStream := by
  decide

/-- C4 amended: for a loaded container and a stream number at or beyond the
declared stream count, `readStreamData` panics (a Go index-out-of-range on
`StreamInfos`, modelled `goPanic`) instead of returning a recoverable
`UnknownStreamError`; the function mutates nothing, so the container and its
other streams are unaffected. -/
theorem readStreamData_oob_panics (dec : PDBStreamDecoder) (buf : List Byte) (f : File)
    (i : Nat) (h : ParseFile dec buf = Except.ok f) (hi : f.streamTbl.nStreams ≤ i) :
    readStreamData f.data f.fileHdr.pageSize f.streamTbl i =
      Except.error PDBError.goPanic := by
  obtain ⟨hdrRest, fpmData, std, hh, hrp, hfpm, hrst, hpst, hstreams, hdata⟩ :=
    ParseFile_inv dec buf f h
  have hlen := parseStreamTable_lengths _ _ _ hpst
  simp only [readStreamData, goIndex_oob f.streamTbl.streamInfos i (by omega)]

/-- Witness for C4: `richBuf` loads with 2 streams; stream number 2 panics. -/
theorem readStreamData_oob_panics_witness :
    readStreamData richFile.data richFile.fileHdr.pageSize richFile.streamTbl 2 =
      Except.error PDBError.goPanic :=
  readStreamData_oob_panics decOk richBuf richFile 2 (by decide) (by decide)

/-- C5 counterexample: `shortDirBuf` declares a 1-byte stream directory on
page 200 of a 62-byte buffer, so the directory's declared size exceeds the
bytes available in its pages; the load is a Go panic (`goPanic`, from the
out-of-range page slice), not the claimed recoverable `truncated` error. -/
theorem dirPagesOutOfBuffer_panics_cex :
    ParseFile dec0 shortDirBuf = Except.error PDBError.goPanic ∧
      PDBError.goPanic ≠ PDBError.truncated := by
  decide

/-- C5 amended: decoding the (already truncated) directory buffer fails with
the recoverable `truncated` error whenever fewer bytes remain than a declared
field requires — for the 4-byte stream count, for the 8-byte-per-stream
descriptor array, and for the 2-byte-per-entry page-index lists; but a
directory whose own pages lie outside the buffer panics instead (see the
counterexample). -/
theorem parseStreamTable_truncated (ps : Int) (hps : 0 < ps) (bs : List Byte) :
    (bs.length < 4 → parseStreamTable ps bs = Except.error PDBError.truncated) ∧
    (∀ (n : Nat) (bs1 : List Byte), readU32 bs = Except.ok (n, bs1) → bs1.length < 8 * n →
      parseStreamTable ps bs = Except.error PDBError.truncated) ∧
    (∀ (n : Nat) (bs1 : List Byte) (infos : List StreamInfo) (bs2 : List Byte),
      readU32 bs = Except.ok (n, bs1) → readStreamInfos n bs1 = Except.ok (infos, bs2) →
      (∀ si ∈ infos, 0 ≤ si.size) →
      bs2.length < 2 * (infos.map (fun si => (ceilNPages si.size ps).toNat)).sum →
      parseStreamTable ps bs = Except.error PDBError.truncated) := by
  refine ⟨?_, ?_, ?_⟩
  · intro hshort
    simp only [parseStreamTable, readU32_short bs hshort]
  · intro n bs1 hu32 hshort
    simp only [parseStreamTable, hu32, readStreamInfos_short n bs1 hshort]
  · intro n bs1 infos bs2 hu32 hinfos hsz hshort
    simp only [parseStreamTable, hu32, hinfos,
      readPageNumMaps_short ps hps infos bs2 hsz hshort]

/-- Witness for C5: the empty directory buffer is shorter than the 4-byte
stream count and fails with the recoverable `truncated` error. -/
theorem parseStreamTable_truncated_witness :
    parseStreamTable 1 [] = Except.error PDBError.truncated :=
  (parseStreamTable_truncated 1 (by norm_num) []).1 (by decide)

/-- C6: an input whose first 44 bytes exist but differ from the MSF signature
makes the load fail with the `formatErr` error; no `File` value is
returned. -/
theorem parseFile_badMagic_formatErr (dec : PDBStreamDecoder) (buf : List Byte)
    (hlen : 44 ≤ buf.length) (hmagic : buf.take 44 ≠ msfSignature) :
    ParseFile dec buf = Except.error PDBError.formatErr := by
  have h1 : parseMSFHeader buf = Except.error PDBError.formatErr := by
    simp only [parseMSFHeader, readBytes, if_pos hlen]
    rw [if_pos hmagic]
  simp only [ParseFile, h1]

/-- Witness for C6: 44 zero bytes are not the signature and the load fails
with `formatErr`. -/
theorem parseFile_badMagic_formatErr_witness :
    ParseFile dec0 (List.replicate 44 0) = Except.error PDBError.formatErr :=
  parseFile_badMagic_formatErr dec0 (List.replicate 44 0) (by simp) (by decide)

/-- C7: the superblock parser decodes, sequentially from offset 0 and
little-endian, a 44-byte magic, a 4-byte signed page size, a 2-byte free-page
-map page number, a 2-byte page count, a 4-byte directory size plus 4-byte
reserved field, then exactly `ceil(dirSize / pageSize)` 2-byte page indices,
consuming no padding: parsing the spec's encoding followed by any remaining
bytes returns the header and leaves exactly those remaining bytes. -/
theorem parseMSFHeader_layout (ps size unk : Int) (fpmp np : Nat) (pnm : List Nat)
    (rest : List Byte) (hps0 : 0 < ps) (hps31 : ps < 2 ^ 31) (hsz0 : 0 ≤ size)
    (hsz31 : size < 2 ^ 31) (hunk0 : 0 ≤ unk) (hunk31 : unk < 2 ^ 31)
    (hf : fpmp < 2 ^ 16) (hnp : np < 2 ^ 16)
    (hlen : pnm.length = (ceilNPages size ps).toNat) (hpnm : ∀ p ∈ pnm, p < 2 ^ 16) :
    parseMSFHeader
        (encodeMSFHeader ⟨msfSignature, ps, fpmp, np, ⟨size, unk⟩, pnm⟩ ++ rest) =
      Except.ok (⟨msfSignature, ps, fpmp, np, ⟨size, unk⟩, pnm⟩, rest) := by
  have hn : ¬ ceilNPages size ps < 0 := by
    have := ceilNPages_nonneg size ps hsz0 hps0
    omega
  have hu16 : readU16List pnm.length (pnm.flatMap le16 ++ rest) = Except.ok (pnm, rest) :=
    readU16List_encode pnm rest hpnm
  simp only [encodeMSFHeader, List.append_assoc]
  simp only [parseMSFHeader, readBytes_append 44 msfSignature _ (by decide)]
  rw [if_neg (by simp)]
  simp only [readI32_encodeI32 ps _ hps0.le hps31, readU16_le16 fpmp _ hf,
    readU16_le16 np _ hnp, readI32_encodeI32 size _ hsz0 hsz31,
    readI32_encodeI32 unk _ hunk0 hunk31, if_neg hn, hlen ▸ hu16]

/-- Witness for C7: a header with page size 1 and an empty directory (size 0,
no page indices) roundtrips through its 60-byte encoding. -/
theorem parseMSFHeader_layout_witness :
    parseMSFHeader (encodeMSFHeader ⟨msfSignature, 1, 0, 1, ⟨0, 0⟩, []⟩ ++ []) =
      Except.ok (⟨msfSignature, 1, 0, 1, ⟨0, 0⟩, []⟩, []) :=
  parseMSFHeader_layout 1 0 0 0 1 [] [] (by norm_num) (by norm_num) (by norm_num)
    (by norm_num) (by norm_num) (by norm_num) (by norm_num) (by norm_num)
    (by decide) (by decide)

/-- C8: in a loaded container the free page map is exactly one page, read with
`readPage` at the superblock's free-page-map page number and stored verbatim;
and for every page number whose bitmap byte exists, `isFree` returns exactly
bit `pageNum % 8` of bitmap byte `pageNum / 8` (bit set = page free). -/
theorem freePageMap_verbatim_bits (dec : PDBStreamDecoder) (buf : List Byte) (f : File)
    (h : ParseFile dec buf = Except.ok f) :
    readPage f.data f.fileHdr.pageSize (f.fileHdr.freePageMapPageNum : Int) =
      Except.ok f.freePageMap.pageBits ∧
    ∀ pageNum : Nat, pageNum / 8 < f.freePageMap.pageBits.length →
      isFree f.freePageMap pageNum =
        Except.ok (Nat.testBit (f.freePageMap.pageBits.getD (pageNum / 8) 0)
          (pageNum % 8)) := by
  obtain ⟨hdrRest, fpmData, std, hh, hrp, hfpm, hrst, hpst, hstreams, hdata⟩ :=
    ParseFile_inv dec buf f h
  refine ⟨?_, fun pn hpn => isFree_testBit f.freePageMap pn hpn⟩
  rw [hdata, hfpm]
  exact hrp

/-- Witness for C8 at `sampleBuf`: the bitmap is the single byte of page 0 and
`isFree 0` is bit 0 of that byte. -/
theorem freePageMap_verbatim_bits_witness :
    readPage sampleFile.data sampleFile.fileHdr.pageSize
        (sampleFile.fileHdr.freePageMapPageNum : Int) =
      Except.ok sampleFile.freePageMap.pageBits ∧
    isFree sampleFile.freePageMap 0 =
      Except.ok (Nat.testBit (sampleFile.freePageMap.pageBits.getD 0 0) 0) := by
  have h := freePageMap_verbatim_bits dec0 sampleBuf sampleFile (by decide)
  exact ⟨h.1, h.2 0 (by decide)⟩

/-- C9 counterexample: `buf9` loads into a container declaring 100 pages while
its free page map is a single-byte bitmap (page size 1), so page number 9 —
below the declared page count — indexes byte 1 of a 1-byte bitmap: the query
attempts to read past the stored bitmap and panics. Nothing validates
`nPages ≤ 8 * pageSize`, refuting the claim. -/
theorem freePageMap_overrun_cex :
    ParseFile dec0 buf9 = Except.ok file9 ∧ 9 < file9.fileHdr.nPages ∧
      isFree file9.freePageMap 9 = Except.error PDBError.goPanic := by
  decide

/-- C9 amended: in a loaded container the free-page-map page itself lies
within the buffer and the stored bitmap has exactly `pageSize` bytes, and a
query stays within the bitmap exactly for `pageNum / 8 < pageSize` — the
declared page count `nPages` gives no such guarantee. -/
theorem freePageMap_bounds (dec : PDBStreamDecoder) (buf : List Byte) (f : File)
    (h : ParseFile dec buf = Except.ok f) :
    f.freePageMap.pageBits.length = f.fileHdr.pageSize.toNat ∧
    ((f.fileHdr.freePageMapPageNum : Int) * f.fileHdr.pageSize + f.fileHdr.pageSize ≤
      (buf.length : Int)) ∧
    ∀ pn : Nat, pn / 8 < f.fileHdr.pageSize.toNat →
      ∃ b, isFree f.freePageMap pn = Except.ok b := by
  obtain ⟨hdrRest, fpmData, std, hh, hrp, hfpm, hrst, hpst, hstreams, hdata⟩ :=
    ParseFile_inv dec buf f h
  obtain ⟨h1, h2, h3, h4⟩ := readPage_inv buf _ _ fpmData hrp
  have hlen : f.freePageMap.pageBits.length = f.fileHdr.pageSize.toNat := by
    rw [hfpm]
    exact h4
  refine ⟨hlen, h2, fun pn hpn => ?_⟩
  exact ⟨_, isFree_testBit f.freePageMap pn (by rw [hlen]; exact hpn)⟩

/-- Witness for C9 at `sampleBuf`: the bitmap has 1 = pageSize bytes, the
free-page-map page fits in the buffer, and page 3 is queryable. -/
theorem freePageMap_bounds_witness :
    sampleFile.freePageMap.pageBits.length = sampleFile.fileHdr.pageSize.toNat ∧
    ((sampleFile.fileHdr.freePageMapPageNum : Int) * sampleFile.fileHdr.pageSize +
      sampleFile.fileHdr.pageSize ≤ (sampleBuf.length : Int)) ∧
    ∃ b, isFree sampleFile.freePageMap 3 = Except.ok b := by
  have h := freePageMap_bounds dec0 sampleBuf sampleFile (by decide)
  exact ⟨h.1, h.2.1, h.2.2 3 (by decide)⟩

/-- C10: `ParseFile` discards the error `parseStream` returns, so a
header-stream decoder that fails on every stream — in particular on stream 1,
the PDB header stream — still yields a fully loaded `File` with no error,
identical to the original load except that the failed stream is absent from
`streams` (and no other stream number ever appends to `streams`). -/
theorem parseFile_ignores_decode_errors (dec : PDBStreamDecoder) (e : PDBError)
    (buf : List Byte) (f : File) (h : ParseFile dec buf = Except.ok f) :
    ∃ f', ParseFile (fun _ => Except.error e) buf = Except.ok f' ∧ f'.streams = [] ∧
      f'.fileHdr = f.fileHdr ∧ f'.freePageMap = f.freePageMap ∧
      f'.streamTbl = f.streamTbl ∧ f'.data = f.data := by
  obtain ⟨hdrRest, fpmData, std, hh, hrp, hfpm, hrst, hpst, hstreams, hdata⟩ :=
    ParseFile_inv dec buf f h
  have hps' := parseStreams_failDec dec e buf f.fileHdr.pageSize f.streamTbl
    (List.range f.streamTbl.nStreams) [] f.streams [] hstreams
  refine ⟨⟨f.fileHdr, f.freePageMap, f.streamTbl, [], buf⟩, ?_, rfl, rfl, rfl, rfl,
    hdata.symm⟩
  simp only [ParseFile, hh, hrp, hrst, hpst, hps', hfpm]

/-- Witness for C10: loading `richBuf` with a succeeding decoder stores the
decoded header stream, and reloading it with an always-failing decoder still
returns a loaded `File`, identical except for the empty `streams` list. -/
theorem parseFile_ignores_decode_errors_witness :
    ∃ f', ParseFile (fun _ => Except.error PDBError.truncated) richBuf = Except.ok f' ∧
      f'.streams = [] ∧ f'.fileHdr = richFile.fileHdr ∧
      f'.freePageMap = richFile.freePageMap ∧ f'.streamTbl = richFile.streamTbl ∧
      f'.data = richFile.data :=
  parseFile_ignores_decode_errors decOk PDBError.truncated richBuf richFile (by decide)

end PDB
